import Mathlib

/-!
Verification of the SwarmFS TUI daemon-session layer (tui-rs).

Shallow embedding of the core data model and operations:
JSON values, the RPC read loop, the event decoder, the job dispatcher
consumers (generation-tagged result draining), the multi-selection
engine, the fuzzy filter, and the bounded log buffer.
Each definition is translated from the corresponding Rust source item.
-/

namespace SwarmFS

/-- JSON values as exchanged on the wire (`serde_json::Value`).
Numbers are modelled as integers; the client code only reads integral
fields (`as_i64` / `as_u64`). -/
inductive Json where
  | null
  | bool (b : Bool)
  | str (s : String)
  | num (n : Int)
  | arr (xs : List Json)
  | obj (fields : List (String × Json))

/-- `Value::get(key)` for objects: first field with the given key. -/
def Json.get : Json → String → Option Json
  | .obj fields, k => (fields.find? (fun p => p.1 == k)).map (fun p => p.2)
  | _, _ => none

/-- `Value::as_str`. -/
def Json.asStr : Json → Option String
  | .str s => some s
  | _ => none

/-- `Value::as_bool`. -/
def Json.asBool : Json → Option Bool
  | .bool b => some b
  | _ => none

/-- `Value::as_i64`. -/
def Json.asInt : Json → Option Int
  | .num n => some n
  | _ => none

/-- `Value::as_u64`: integral and non-negative. -/
def Json.asNat : Json → Option Nat
  | .num n => if n < 0 then none else some n.toNat
  | _ => none

/-- `Value::as_array`. -/
def Json.asArr : Json → Option (List Json)
  | .arr xs => some xs
  | _ => none

/-! ## Selection engine (`widgets.rs`, `MultiSelectState<K>`)

The Rust `BTreeSet<K>` of selected keys is modelled as a `Finset K`. -/

/-- State of `MultiSelectState<K>`: the deduplicated selected-key set and
the optional anchor index. -/
structure MultiSelectState (K : Type) [DecidableEq K] where
  selected : Finset K
  anchor : Option Nat

variable {K : Type} [DecidableEq K]

namespace MultiSelectState

/-- `MultiSelectState::set_anchor`. -/
def set_anchor (st : MultiSelectState K) (anchorIdx : Option Nat) : MultiSelectState K :=
  { st with anchor := anchorIdx }

/-- `MultiSelectState::clear`. -/
def clear (st : MultiSelectState K) : MultiSelectState K :=
  { selected := ∅, anchor := none }

/-- `MultiSelectState::set_single`. -/
def set_single (st : MultiSelectState K) (key : K) (anchorIdx : Nat) : MultiSelectState K :=
  { selected := {key}, anchor := some anchorIdx }

/-- `MultiSelectState::toggle`. -/
def toggle (st : MultiSelectState K) (key : K) (anchorIdx : Nat) : MultiSelectState K :=
  { selected := if key ∈ st.selected then st.selected.erase key else insert key st.selected,
    anchor := some anchorIdx }

/-- The body of the `for i in a..=b` loop of `range_select`: insert
`keys[i]` for each index in turn, skipping out-of-range indices. -/
def rangeInsert (keys : List K) (sel : Finset K) : List Nat → Finset K
  | [] => sel
  | i :: idxs =>
    rangeInsert keys
      (match keys.get? i with
       | some k => insert k sel
       | none => sel) idxs

/-- `MultiSelectState::range_select`: with no anchor, degenerate to
`set_single` on the target (when in range); with an anchor, insert every
key in the inclusive index interval `min..=max`. -/
def range_select (st : MultiSelectState K) (keys : List K) (targetIdx : Nat) :
    MultiSelectState K :=
  match st.anchor with
  | none =>
    match keys.get? targetIdx with
    | some k => st.set_single k targetIdx
    | none => st
  | some anchor =>
    let a := min anchor targetIdx
    let b := max anchor targetIdx
    { st with selected := rangeInsert keys st.selected (List.range' a (b + 1 - a)) }

/-- `MultiSelectState::retain_existing`. -/
def retain_existing (st : MultiSelectState K) (existing : Finset K) : MultiSelectState K :=
  { st with selected := st.selected.filter (fun k => k ∈ existing) }

/-- `MultiSelectState::select_all`. -/
def select_all (st : MultiSelectState K) (keys : List K) : MultiSelectState K :=
  { st with selected := keys.toFinset }

/-- `MultiSelectState::invert`: complement of the selection within `keys`. -/
def invert (st : MultiSelectState K) (keys : List K) : MultiSelectState K :=
  { st with selected := (keys.filter (fun k => k ∉ st.selected)).toFinset }

end MultiSelectState

/-! ## Log buffer (`app.rs`, `App::push_log`) -/

/-- A daemon log entry (`app.rs`, `LogEntry`). -/
structure LogEntry where
  ts : Int
  level : String
  message : String

/-- The `while len > max pop_front` loop of `App::push_log`. -/
def trim_front {α : Type} (maxLen : Nat) : List α → List α
  | [] => []
  | x :: t => if (x :: t).length > maxLen then trim_front maxLen t else x :: t

/-- `App::push_log`: append at the back, then evict from the front while
over capacity. -/
def push_log {α : Type} (maxLen : Nat) (logs : List α) (entry : α) : List α :=
  trim_front maxLen (logs ++ [entry])

/-- `App::new` sets `logs_max` to 5000. -/
def logs_max : Nat := 5000

theorem trim_front_eq_drop {α : Type} (maxLen : Nat) :
    ∀ l : List α, trim_front maxLen l = l.drop (l.length - maxLen) := by
  intro l
  induction l with
  | nil => simp [trim_front]
  | cons x t ih =>
    by_cases h : (x :: t).length > maxLen
    · have hlen : (x :: t).length - maxLen = (t.length - maxLen) + 1 := by
        simp only [List.length_cons] at h ⊢
        omega
      rw [trim_front, if_pos h, ih, hlen, List.drop_succ_cons]
    · have hlen : (x :: t).length - maxLen = 0 := by
        simp only [List.length_cons] at h ⊢
        omega
      rw [trim_front, if_neg h, hlen, List.drop_zero]

theorem trim_front_length_le {α : Type} (maxLen : Nat) (l : List α) :
    (trim_front maxLen l).length ≤ maxLen := by
  rw [trim_front_eq_drop, List.length_drop]
  omega

theorem trim_front_suffix {α : Type} (maxLen : Nat) (l : List α) :
    trim_front maxLen l <:+ l := by
  rw [trim_front_eq_drop]
  exact List.drop_suffix _ l

theorem push_log_foldl_length {α : Type} (maxLen : Nat) (es : List α) :
    ∀ acc : List α, acc.length ≤ maxLen →
      (es.foldl (push_log maxLen) acc).length ≤ maxLen := by
  induction es with
  | nil => intro acc h; simpa using h
  | cons e es ih =>
    intro acc _
    simp only [List.foldl_cons]
    exact ih _ (trim_front_length_le maxLen _)

theorem push_log_foldl_suffix {α : Type} (maxLen : Nat) (es : List α) :
    ∀ acc : List α, (es.foldl (push_log maxLen) acc) <:+ acc ++ es := by
  induction es with
  | nil => intro acc; simpa using List.suffix_refl acc
  | cons e es ih =>
    intro acc
    simp only [List.foldl_cons]
    have h1 : es.foldl (push_log maxLen) (push_log maxLen acc e) <:+
        (push_log maxLen acc e) ++ es := ih _
    have h2 : push_log maxLen acc e <:+ acc ++ [e] := trim_front_suffix maxLen _
    have h3 : (push_log maxLen acc e) ++ es <:+ (acc ++ [e]) ++ es := by
      obtain ⟨p, hp⟩ := h2
      exact ⟨p, by rw [← List.append_assoc, hp]⟩
    have := h1.trans h3
    simpa using this

/-! ## RPC client read loop (`ipc/mod.rs`, `RpcClient::rpc`)

After the request is written, the loop reads one line per iteration.
A line read is either a zero-byte read (connection closed), a line that
does not parse as JSON (this includes a blank line, since the code parses
`buf.trim()`), or a parsed JSON frame. -/

/-- One iteration's input to the `RpcClient::rpc` read loop. -/
inductive RpcLine where
  | eof
  | unparsable
  | parsed (v : Json)

/-- How a call can fail (`anyhow` errors in `RpcClient::rpc`):
`disconnected` is the `"daemon disconnected"` bail on a zero-byte read,
`parse` is the propagated `serde_json::from_str` error, and `daemon` is
the `ok:false` bail carrying the daemon-supplied message. -/
inductive RpcError where
  | disconnected
  | parse
  | daemon (message : String)
deriving DecidableEq

/-- Daemon-supplied failure message: `error.message`, defaulting to
`"RPC error"`. -/
def rpcErrMessage (v : Json) : String :=
  (((v.get "error").bind (fun e => e.get "message")).bind Json.asStr).getD "RPC error"

/-- The read loop of `RpcClient::rpc` for outstanding request id `n`,
consuming a finite prefix of the incoming line stream.  `none` means the
loop is still waiting for more input; `some r` means the call completed
with result `r`. -/
def rpc_drain (n : Nat) : List RpcLine → Option (Except RpcError Json)
  | [] => none
  | .eof :: _ => some (.error .disconnected)
  | .unparsable :: _ => some (.error .parse)
  | .parsed v :: rest =>
    if ((v.get "type").bind Json.asStr) ≠ some "res" then
      rpc_drain n rest
    else if ((v.get "id").bind Json.asStr) ≠ some (toString n) then
      rpc_drain n rest
    else if ((v.get "ok").bind Json.asBool) = some true then
      some (.ok ((v.get "result").getD .null))
    else
      some (.error (.daemon (rpcErrMessage v)))

/-- A parsed frame the loop skips while request `n` is outstanding:
wrong `type` or wrong `id`. -/
def rpcSkips (n : Nat) (l : RpcLine) : Prop :=
  ∃ v, l = .parsed v ∧
    (((v.get "type").bind Json.asStr) ≠ some "res" ∨
     ((v.get "id").bind Json.asStr) ≠ some (toString n))

/-! ## Event decoding (`ipc/types.rs` and the `event_thread` loop) -/

/-- `LogEntry::try_from` (`app.rs`): never fails, missing fields default. -/
def LogEntry.try_from (v : Json) : Except String LogEntry :=
  .ok
    { ts := ((v.get "ts").bind Json.asInt).getD 0
      level := ((v.get "level").bind Json.asStr).getD "info"
      message := ((v.get "message").bind Json.asStr).getD "" }

/-- Rust `str::starts_with`, as a character-level prefix test (UTF-8 byte
prefix and character prefix agree). -/
def starts_with (s p : String) : Bool := p.data.isPrefixOf s.data

/-- `StateEvent` (`ipc/types.rs`). -/
inductive StateEvent where
  | files (data : Json)
  | topics (data : Json)
  | other (name : String) (data : Json)

/-- `StateEvent::from_event_name`. -/
def StateEvent.from_event_name (name : String) (data : Json) : StateEvent :=
  if name = "state.files" then .files data
  else if name = "state.topics" then .topics data
  else .other name data

/-- `NetworkEvent` (`ipc/types.rs`). -/
inductive NetworkEvent where
  | stats (data : Json)
  | other (name : String) (data : Json)

/-- `NetworkEvent::from_event_name`. -/
def NetworkEvent.from_event_name (name : String) (data : Json) : NetworkEvent :=
  if name = "network.stats" then .stats data
  else .other name data

/-- `DaemonEvent` (`ipc/types.rs`). -/
inductive DaemonEvent where
  | log (e : LogEntry)
  | network (e : NetworkEvent)
  | state (e : StateEvent)

/-- `DaemonEvent::try_from` (`ipc/types.rs`): dispatch on the `event`
name; names outside the recognized namespaces produce an error. -/
def DaemonEvent.try_from (v : Json) : Except String DaemonEvent :=
  let event := ((v.get "event").bind Json.asStr).getD ""
  if event = "log" then
    (LogEntry.try_from ((v.get "data").getD .null)).map DaemonEvent.log
  else if starts_with event "network." then
    .ok (.network (NetworkEvent.from_event_name event ((v.get "data").getD .null)))
  else if starts_with event "state." then
    .ok (.state (StateEvent.from_event_name event ((v.get "data").getD .null)))
  else
    .error ("unknown event: " ++ event)

/-- One iteration of the `event_thread` read loop on a parsed frame:
frames whose `type` is not `"evt"` are ignored, and a frame whose decode
fails is dropped (`try_from(v).ok()`). -/
def event_step (v : Json) : Option DaemonEvent :=
  if ((v.get "type").bind Json.asStr) = some "evt" then
    (DaemonEvent.try_from v).toOption
  else
    none

/-- An event frame as the daemon sends it:
`{type:"evt", event: name, data: data}`. -/
def mkEvt (name : String) (data : Json) : Json :=
  .obj [("type", .str "evt"), ("event", .str name), ("data", data)]

/-! ## Fuzzy filter (`file_picker.rs`, `subseq_score`)

Labels and queries are the `Vec<char>` the Rust code collects, modelled
as `List Char`.  `char::to_ascii_lowercase` corresponds to Lean's
ASCII-only `Char.toLower`. -/

/-- The inner `while li < label_chars.len()` scan of `subseq_score`:
first index `≥ i` (into the original label) whose character matches `qc`
case-insensitively; the argument list is the label suffix starting at `i`. -/
def scanFromAux (qc : Char) : List Char → Nat → Option Nat
  | [], _ => none
  | c :: rest, i =>
    if c.toLower = qc.toLower then some i else scanFromAux qc rest (i + 1)

/-- The outer `for qc in q_chars` loop of `subseq_score`: greedy
left-to-right matching starting at label position `li`; returns the
matched indices or `none` if some query character cannot be matched. -/
def greedyIndices (label : List Char) : Nat → List Char → Option (List Nat)
  | _, [] => some []
  | li, qc :: qs =>
    match scanFromAux qc (label.drop li) li with
    | none => none
    | some idx => (greedyIndices label (idx + 1) qs).map (fun l => idx :: l)

/-- Number of adjacent index pairs (`w[1] == w[0] + 1` over `windows(2)`). -/
def adjPairs : List Nat → Nat
  | a :: b :: rest => (if b = a + 1 then 1 else 0) + adjPairs (b :: rest)
  | _ => 0

/-- `subseq_score(label, query)` (`file_picker.rs`): case-insensitive
greedy subsequence match returning `(score, match_indices)`. -/
def subseq_score (label query : List Char) : Option (Int × List Nat) :=
  if query.isEmpty then some (0, [])
  else
    match greedyIndices label 0 query with
    | none => none
    | some idxs =>
      let score : Int := 10 * idxs.length + 15 * adjPairs idxs - (idxs.headD 0 : Nat)
      some (score, idxs)

/-! ## Picker filtering (`file_picker.rs`, `FilePicker::recompute_visible`) -/

/-- Rust `char` comparison (by code point, as in `str::cmp`). -/
def charCmp (a b : Char) : Ordering :=
  if a.toNat < b.toNat then .lt else if b.toNat < a.toNat then .gt else .eq

/-- Rust `str::cmp`: lexicographic byte order, equal to code-point
lexicographic order on the character sequences. -/
def lexCmp : List Char → List Char → Ordering
  | [], [] => .eq
  | [], _ :: _ => .lt
  | _ :: _, [] => .gt
  | a :: as_, b :: bs => (charCmp a b).then (lexCmp as_ bs)

/-- Rust `i64::cmp` on scores. -/
def intCmp (a b : Int) : Ordering :=
  if a < b then .lt else if b < a then .gt else .eq

/-- A visible entry `(item_idx, score, match_indices)` of the picker. -/
abbrev VisibleItem := Nat × Int × List Nat

/-- The comparator of `recompute_visible`:
`b.score.cmp(&a.score).then_with(|| label[a].cmp(&label[b]))`. -/
def visCmp (labels : List (List Char)) (a b : VisibleItem) : Ordering :=
  (intCmp b.2.1 a.2.1).then (lexCmp (labels.getD a.1 []) (labels.getD b.1 []))

/-- `sort_by(cmp)` keeps `a` before `b` whenever `cmp a b` is not `Greater`. -/
def visLe (labels : List (List Char)) (a b : VisibleItem) : Bool :=
  match visCmp labels a b with
  | .gt => false
  | _ => true

/-- `str::trim` on the query (ASCII/Unicode whitespace at both ends). -/
def trimChars (q : List Char) : List Char :=
  ((q.dropWhile Char.isWhitespace).reverse.dropWhile Char.isWhitespace).reverse

/-- `FilePicker::recompute_visible`, as a function of the item labels and
the query: an empty (trimmed) query keeps every item in order with score 0
and no match indices; otherwise items are filtered through `subseq_score`
and sorted by score descending, ties by ascending label (a stable sort by
the comparator `visCmp`, Rust `sort_by`). -/
def recompute_visible (labels : List (List Char)) (query : List Char) : List VisibleItem :=
  let q := trimChars query
  if q.isEmpty then
    labels.enum.map (fun p => (p.1, (0 : Int), ([] : List Nat)))
  else
    let vis := labels.enum.filterMap (fun p =>
      (subseq_score p.2 q).map (fun r => (p.1, r.1, r.2)))
    vis.mergeSort (visLe labels)

/-! ## Network tab (`tabs/network.rs`) -/

/-- `TopicRow`. -/
structure TopicRow where
  name : String
  key : Option String
  autoJoin : Option Bool
  lastJoinedAt : Option Int
  joined : Bool
  peers : Nat

/-- `parse_overview_topics`: the `topics` array filtered through the
per-row parser (a row without a string `name` is dropped). -/
def parse_overview_topics (v : Json) : List TopicRow :=
  match (v.get "topics").bind Json.asArr with
  | none => []
  | some arr =>
    arr.filterMap (fun t =>
      ((t.get "name").bind Json.asStr).map (fun name =>
        { name := name
          key := (t.get "topicKey").bind Json.asStr
          autoJoin := (t.get "autoJoin").bind Json.asBool
          lastJoinedAt := (t.get "lastJoinedAt").bind Json.asInt
          joined := ((t.get "joined").bind Json.asBool).getD false
          peers := ((t.get "peers").bind Json.asNat).getD 0 }))

/-- `JoinLeaveMsg` (`tabs/network.rs`). -/
inductive JoinLeaveMsg where
  | done (overview : Json)
  | error (message : String)

/-- The consumer-visible state of `NetworkTab` touched by the join/leave
machinery: the topics list, the table cursor, the last error, the busy
indicator, and the current generation `join_leave_req_id`. -/
structure NetworkTabState where
  topics : List TopicRow
  tableSelected : Option Nat
  lastError : Option String
  joinLeaveReqId : Nat
  joinLeaveBusy : Option String

/-- `u64` modulus for `wrapping_add(1)`. -/
def u64Mod : Nat := 18446744073709551616

namespace NetworkTabState

/-- `NetworkTab::selected_topic_name`. -/
def selected_topic_name (st : NetworkTabState) : Option String :=
  st.tableSelected.bind (fun idx => (st.topics.get? idx).map (fun t => t.name))

/-- The body of the `while let Ok(..) = try_recv` loop of
`NetworkTab::poll_async` for one drained message `(req_id, msg)`:
a generation mismatch leaves the state untouched. -/
def poll_step (st : NetworkTabState) (m : Nat × JoinLeaveMsg) : NetworkTabState :=
  if m.1 ≠ st.joinLeaveReqId then st
  else
    match m.2 with
    | .done overview =>
      let topics := parse_overview_topics overview
      let sel :=
        if topics.isEmpty then none
        else if st.tableSelected = none then some 0
        else st.tableSelected
      { st with topics := topics, tableSelected := sel,
                joinLeaveBusy := none, lastError := none }
    | .error message =>
      { st with joinLeaveBusy := none, lastError := some message }

/-- `NetworkTab::poll_async`: drain the queued messages in order. -/
def poll_async (st : NetworkTabState) (msgs : List (Nat × JoinLeaveMsg)) : NetworkTabState :=
  msgs.foldl poll_step st

/-- The synchronous (consumer-side) effect of `NetworkTab::join_selected`:
with a selected topic, bump the generation (`wrapping_add(1)` on `u64`),
set the busy indicator and clear the last error; with no selected topic,
do nothing.  (The spawned background thread itself mutates no consumer
state.) -/
def join_selected (st : NetworkTabState) : NetworkTabState :=
  match st.selected_topic_name with
  | none => st
  | some name =>
    { st with joinLeaveReqId := (st.joinLeaveReqId + 1) % u64Mod,
              joinLeaveBusy := some ("joining " ++ name),
              lastError := none }

end NetworkTabState

/-! ## Files tab (`tabs/stubs.rs`) -/

/-- `FileEntryRow`. -/
structure FileEntryRow where
  typ : String
  path : String
  size : Option Nat
  chunks : Option Nat
  merkleRoot : Option String
deriving DecidableEq

/-- `parse_files_list`: the `files` array rows (type `"f"`) followed by
the `dirs` array rows (type `"d"`); rows without a string `path` are
dropped. -/
def parse_files_list (v : Json) : List FileEntryRow :=
  (((v.get "files").bind Json.asArr).getD []).filterMap (fun f =>
    ((f.get "path").bind Json.asStr).map (fun path =>
      { typ := "f"
        path := path
        size := (f.get "size").bind Json.asNat
        chunks := (f.get "chunk_count").bind Json.asNat
        merkleRoot := (f.get "merkle_root").bind Json.asStr }))
  ++
  (((v.get "dirs").bind Json.asArr).getD []).filterMap (fun d =>
    ((d.get "path").bind Json.asStr).map (fun path =>
      { typ := "d"
        path := path
        size := none
        chunks := none
        merkleRoot := (d.get "merkle_root").bind Json.asStr }))

/-- `VerifyMsg` (`tabs/stubs.rs`). -/
inductive VerifyMsg where
  | progress (done total : Nat)
  | done (value : Json)
  | error (message : String)

/-- The consumer-visible state of `FilesTab` touched by refresh, the
info job and the verify job. -/
structure FilesTabState where
  entries : List FileEntryRow
  tableSelected : Option Nat
  selection : MultiSelectState String
  infoReqId : Nat
  verifyReqId : Nat
  verifyProgress : Option (Nat × Nat)
  focusedPath : Option String
  lastError : Option String
  lastInfo : Option Json
  lastVerify : Option Json

namespace FilesTabState

/-- `FilesTab::selected_path`. -/
def selected_path (st : FilesTabState) : Option String :=
  st.tableSelected.bind (fun idx => (st.entries.get? idx).map (fun e => e.path))

/-- The body of the info-queue drain loop of `FilesTab::poll_async` for
one message `(req_id, path, res)`: generation or focused-path mismatch
leaves the state untouched. -/
def info_poll_step (st : FilesTabState) (m : Nat × String × Except String Json) :
    FilesTabState :=
  if m.1 ≠ st.infoReqId then st
  else if st.focusedPath ≠ some m.2.1 then st
  else
    match m.2.2 with
    | .ok v => { st with lastInfo := some v, lastError := none }
    | .error e => { st with lastError := some e }

/-- The body of the verify-queue drain loop of `FilesTab::poll_async` for
one message `(req_id, msg)`: a generation mismatch leaves the state
untouched. -/
def verify_poll_step (st : FilesTabState) (m : Nat × VerifyMsg) : FilesTabState :=
  if m.1 ≠ st.verifyReqId then st
  else
    match m.2 with
    | .progress done total => { st with verifyProgress := some (done, total) }
    | .done value =>
      { st with verifyProgress := none, lastVerify := some value, lastError := none }
    | .error message =>
      { st with verifyProgress := none, lastError := some message }

/-- `FilesTab::poll_async`: drain the info queue, then the verify queue. -/
def poll_async (st : FilesTabState) (infoMsgs : List (Nat × String × Except String Json))
    (verifyMsgs : List (Nat × VerifyMsg)) : FilesTabState :=
  verifyMsgs.foldl verify_poll_step (infoMsgs.foldl info_poll_step st)

/-- `FilesTab::request_focused_info_if_needed` (consumer-visible part):
with no selected path, clear the focused path and the cached info; with a
path equal to the current focus, do nothing; otherwise refocus, clear the
cached info and bump the info generation. -/
def request_focused_info_if_needed (st : FilesTabState) : FilesTabState :=
  match st.selected_path with
  | none => { st with focusedPath := none, lastInfo := none }
  | some p =>
    if st.focusedPath = some p then st
    else
      { st with focusedPath := some p, lastInfo := none,
                infoReqId := (st.infoReqId + 1) % u64Mod }

/-- The `Ok` branch of `FilesTab::refresh`: replace the entries, retain
the selection against the refreshed path set, fix up the table cursor,
clear the last error, and re-request focused info. -/
def refresh_ok (st : FilesTabState) (v : Json) : FilesTabState :=
  let entries := parse_files_list v
  let existing : Finset String := (entries.map (fun e => e.path)).toFinset
  let st' :=
    { st with entries := entries
              selection := st.selection.retain_existing existing
              tableSelected :=
                if entries.isEmpty then none
                else if st.tableSelected = none then some 0
                else st.tableSelected
              lastError := none }
  st'.request_focused_info_if_needed

/-- `FilesTab::refresh`: on an RPC error only the last error changes. -/
def refresh (st : FilesTabState) (r : Except String Json) : FilesTabState :=
  match r with
  | .ok v => st.refresh_ok v
  | .error e => { st with lastError := some e }

end FilesTabState

/-! ## Verify job (`tabs/stubs.rs`, `FilesTab::verify_selected`)

The background thread's RPC calls are abstracted by an oracle
`resp : Nat → Except String Json` giving the outcome of the `i`-th
`files.verify` call.  The thread pushes `(req_id, msg)` pairs; the
`req_id` tag is constant, so messages are modelled untagged. -/

/-- The per-item result entry pushed into `results`. -/
def verifyEntry (path : String) (r : Except String Json) : Json :=
  match r with
  | .ok v => .obj [("path", .str path), ("result", v)]
  | .error e => .obj [("path", .str path), ("error", .str e)]

/-- The `for (i, path) in paths.into_iter().enumerate()` loop of the
verify job: returns `(ok_count, fail_count, results, progress messages)`
accumulated from item `i` on. -/
def verifyLoop (resp : Nat → Except String Json) (total : Nat) :
    Nat → List String → Nat × Nat × List Json × List VerifyMsg
  | _, [] => (0, 0, [], [])
  | i, path :: rest =>
    let t := verifyLoop resp total (i + 1) rest
    match resp i with
    | .ok v =>
      let okInc : Nat :=
        if ((v.get "valid").bind Json.asBool) = some true then 1 else 0
      let failInc : Nat :=
        if ((v.get "valid").bind Json.asBool) = some false then 1 else 0
      (okInc + t.1, failInc + t.2.1,
       verifyEntry path (.ok v) :: t.2.2.1,
       .progress i total :: t.2.2.2)
    | .error e =>
      (t.1, 1 + t.2.1,
       verifyEntry path (.error e) :: t.2.2.1,
       .progress i total :: t.2.2.2)

/-- The full message sequence pushed by the verify job's background
thread (with the connection succeeding): a progress message before each
item, a final `progress(total, total)`, and one terminal `done` message
whose value carries the summary `(ok, failed, total = ok + failed)` and
the per-item results in input order. -/
def verify_job (resp : Nat → Except String Json) (paths : List String) : List VerifyMsg :=
  let total := paths.length
  let t := verifyLoop resp total 0 paths
  let value : Json :=
    .obj [("summary", .obj [("ok", .num t.1), ("failed", .num t.2.1),
                            ("total", .num (t.1 + t.2.1))]),
          ("results", .arr t.2.2.1)]
  t.2.2.2 ++ [.progress total total, .done value]

/-! ## Claims -/

/-- Claim C10: the log buffer never exceeds `logs_max` (5000) entries:
each `push_log` appends at the back and evicts from the front down to the
bound, and the retained entries are a suffix of the pushed sequence in
arrival order. -/
theorem C10_log_buffer_bound :
    (∀ es : List LogEntry, (es.foldl (push_log logs_max) []).length ≤ logs_max) ∧
    (∀ es : List LogEntry, (es.foldl (push_log logs_max) []) <:+ es) ∧
    (∀ (l : List LogEntry) (e : LogEntry),
      push_log logs_max l e = (l ++ [e]).drop (l.length + 1 - logs_max)) := by
  refine ⟨?_, ?_, ?_⟩
  · intro es
    exact push_log_foldl_length logs_max es [] (by simp)
  · intro es
    simpa using push_log_foldl_suffix logs_max es []
  · intro l e
    rw [push_log, trim_front_eq_drop]
    simp

/-- Claim C1: stale-result immunity.  Draining a join/leave, file-info
or verify result whose generation tag differs from the class's current
generation leaves the whole consumer-visible state unchanged; in
particular, after dispatching twice in a row, a late result tagged with
the first dispatch's generation mutates nothing. -/
theorem C1_stale_result_immunity :
    (∀ (st : NetworkTabState) (g : Nat) (m : JoinLeaveMsg),
      g ≠ st.joinLeaveReqId → st.poll_step (g, m) = st) ∧
    (∀ (st : FilesTabState) (g : Nat) (p : String) (r : Except String Json),
      g ≠ st.infoReqId → st.info_poll_step (g, p, r) = st) ∧
    (∀ (st : FilesTabState) (g : Nat) (m : VerifyMsg),
      g ≠ st.verifyReqId → st.verify_poll_step (g, m) = st) ∧
    (∀ (st : NetworkTabState) (m : JoinLeaveMsg),
      st.joinLeaveReqId < u64Mod → st.selected_topic_name ≠ none →
      (st.join_selected.join_selected).poll_step
        (st.join_selected.joinLeaveReqId, m) = st.join_selected.join_selected) := by
  have frameN : ∀ (st : NetworkTabState) (g : Nat) (m : JoinLeaveMsg),
      g ≠ st.joinLeaveReqId → st.poll_step (g, m) = st := by
    intro st g m h
    simp [NetworkTabState.poll_step, h]
  refine ⟨frameN, ?_, ?_, ?_⟩
  · intro st g p r h
    simp [FilesTabState.info_poll_step, h]
  · intro st g m h
    simp [FilesTabState.verify_poll_step, h]
  · intro st m hlt hsel
    obtain ⟨nm, hnm⟩ := Option.ne_none_iff_exists'.mp hsel
    have hj : ∀ (s : NetworkTabState), s.selected_topic_name = some nm →
        s.join_selected =
          { s with joinLeaveReqId := (s.joinLeaveReqId + 1) % u64Mod,
                   joinLeaveBusy := some ("joining " ++ nm),
                   lastError := none } := by
      intro s h
      simp [NetworkTabState.join_selected, h]
    have h1 := hj st hnm
    have h2 : st.join_selected.selected_topic_name = some nm := by
      rw [h1]
      simpa [NetworkTabState.selected_topic_name] using hnm
    have h3 := hj st.join_selected h2
    have ha : st.join_selected.joinLeaveReqId = (st.joinLeaveReqId + 1) % u64Mod := by
      rw [h1]
    have hg : st.join_selected.joinLeaveReqId ≠
        st.join_selected.join_selected.joinLeaveReqId := by
      rw [h3, ha]
      simp only [u64Mod] at hlt ⊢
      omega
    exact frameN _ _ m hg

/-- Claim C3: RPC id correlation.  The read loop skips every parsed
frame whose `type` is not `"res"` or whose `id` differs from the decimal
string form of the outstanding request id; the first matching frame
resolves the call, with `Ok(result)` when `ok` is `true` and an error
carrying the daemon-supplied message (default `"RPC error"`) otherwise. -/
theorem C3_rpc_id_correlation :
    (∀ (n : Nat) (pre rest : List RpcLine), (∀ l ∈ pre, rpcSkips n l) →
      rpc_drain n (pre ++ rest) = rpc_drain n rest) ∧
    (∀ (n : Nat) (v : Json) (rest : List RpcLine),
      ((v.get "type").bind Json.asStr) = some "res" →
      ((v.get "id").bind Json.asStr) = some (toString n) →
      ((v.get "ok").bind Json.asBool) = some true →
      rpc_drain n (RpcLine.parsed v :: rest) =
        some (.ok ((v.get "result").getD .null))) ∧
    (∀ (n : Nat) (v : Json) (rest : List RpcLine),
      ((v.get "type").bind Json.asStr) = some "res" →
      ((v.get "id").bind Json.asStr) = some (toString n) →
      ((v.get "ok").bind Json.asBool) ≠ some true →
      rpc_drain n (RpcLine.parsed v :: rest) =
        some (.error (.daemon (rpcErrMessage v)))) := by
  refine ⟨?_, ?_, ?_⟩
  · intro n pre
    induction pre with
    | nil => intro rest _; simp
    | cons l pre ih =>
      intro rest hskip
      obtain ⟨v, hv, hcase⟩ := hskip l (List.mem_cons_self l pre)
      have hrest : ∀ x ∈ pre, rpcSkips n x := fun x hx =>
        hskip x (List.mem_cons_of_mem l hx)
      subst hv
      by_cases hty : ((v.get "type").bind Json.asStr) ≠ some "res"
      · rw [List.cons_append, rpc_drain, if_pos hty]
        exact ih rest hrest
      · have hid : ((v.get "id").bind Json.asStr) ≠ some (toString n) := by
          rcases hcase with h | h
          · exact absurd h hty
          · exact h
        rw [List.cons_append, rpc_drain, if_neg hty, if_pos hid]
        exact ih rest hrest
  · intro n v rest hty hid hok
    rw [rpc_drain, if_neg (by simp [hty]), if_neg (by simp [hid]), if_pos hok]
  · intro n v rest hty hid hok
    rw [rpc_drain, if_neg (by simp [hty]), if_neg (by simp [hid]), if_neg hok]

/-- A `res` frame with id `"7"` (not the outstanding id `8`). -/
def resFrame7 : Json :=
  .obj [("id", .str "7"), ("type", .str "res"), ("ok", .bool true),
        ("result", .str "seven")]

/-- A `res` frame with id `"8"` and `ok:true`. -/
def resFrame8 : Json :=
  .obj [("id", .str "8"), ("type", .str "res"), ("ok", .bool true),
        ("result", .str "done")]

/-- Witness for C3: with request id 8 outstanding, a response with id
`"7"` does not resolve the call; the later frame with id `"8"` does. -/
theorem C3_rpc_id_correlation_witness :
    rpc_drain 8 [RpcLine.parsed resFrame7, RpcLine.parsed resFrame8] =
      some (.ok (Json.str "done")) := by
  have h1 := C3_rpc_id_correlation.1 8 [RpcLine.parsed resFrame7]
    [RpcLine.parsed resFrame8]
    (by
      intro l hl
      simp only [List.mem_singleton] at hl
      subst hl
      exact ⟨resFrame7, rfl, Or.inr (by decide)⟩)
  have h2 := C3_rpc_id_correlation.2.1 8 resFrame8 [] (by rfl) (by decide) (by rfl)
  exact (h1.trans h2).trans (by rfl)

/-- Claim C4 is false on the code: in `RpcClient::rpc` the
`serde_json::from_str(..)?` propagates, so a blank or unparsable line
fails the in-progress call instead of being ignored (ignoring it would
leave the loop waiting, i.e. produce `none` as on an empty input). -/
theorem C4_counterexample :
    rpc_drain 1 [RpcLine.unparsable] = some (.error .parse) ∧
    rpc_drain 1 ([] : List RpcLine) = none :=
  ⟨rfl, rfl⟩

/-- Claim C4 (amended): in the RPC read loop a blank or unparsable line
is fatal to the in-progress call (a propagated parse error), and a
zero-byte read fails it with the "disconnected" error. -/
theorem C4_malformed_line_fatal :
    (∀ (n : Nat) (rest : List RpcLine),
      rpc_drain n (RpcLine.unparsable :: rest) = some (.error .parse)) ∧
    (∀ (n : Nat) (rest : List RpcLine),
      rpc_drain n (RpcLine.eof :: rest) = some (.error .disconnected)) :=
  ⟨fun _ _ => rfl, fun _ _ => rfl⟩

/-- Witness for C1: concrete mismatching generations (message tag 1,
current generation 2) leave each state unchanged, and the concrete
dispatch-twice scenario drops the first dispatch's late result. -/
theorem C1_stale_result_immunity_witness :
    (NetworkTabState.poll_step ⟨[], none, none, 2, none⟩ (1, .error "late") =
      (⟨[], none, none, 2, none⟩ : NetworkTabState)) ∧
    (FilesTabState.info_poll_step ⟨[], none, ⟨∅, none⟩, 2, 2, none, none, none, none, none⟩
      (1, "p", .error "x") =
      (⟨[], none, ⟨∅, none⟩, 2, 2, none, none, none, none, none⟩ : FilesTabState)) ∧
    (FilesTabState.verify_poll_step ⟨[], none, ⟨∅, none⟩, 2, 2, none, none, none, none, none⟩
      (1, .progress 0 3) =
      (⟨[], none, ⟨∅, none⟩, 2, 2, none, none, none, none, none⟩ : FilesTabState)) ∧
    ((NetworkTabState.join_selected
        (NetworkTabState.join_selected ⟨[⟨"A", none, none, none, false, 0⟩], some 0, none, 5, none⟩)).poll_step
      ((NetworkTabState.join_selected
        (⟨[⟨"A", none, none, none, false, 0⟩], some 0, none, 5, none⟩ : NetworkTabState)).joinLeaveReqId,
        .error "late") =
      NetworkTabState.join_selected
        (NetworkTabState.join_selected ⟨[⟨"A", none, none, none, false, 0⟩], some 0, none, 5, none⟩)) :=
  ⟨C1_stale_result_immunity.1 _ 1 _ (by decide),
   C1_stale_result_immunity.2.1 _ 1 "p" _ (by decide),
   C1_stale_result_immunity.2.2.1 _ 1 _ (by decide),
   C1_stale_result_immunity.2.2.2 _ (.error "late") (by decide) (by decide)⟩

theorem rangeInsert_mem (keys : List K) (idxs : List Nat) :
    ∀ (s : Finset K) (k : K), k ∈ MultiSelectState.rangeInsert keys s idxs ↔
      k ∈ s ∨ ∃ i ∈ idxs, keys.get? i = some k := by
  induction idxs with
  | nil => intro s k; simp [MultiSelectState.rangeInsert]
  | cons i idxs ih =>
    intro s k
    rw [MultiSelectState.rangeInsert]
    cases hk : keys.get? i with
    | some ki =>
      rw [ih]
      simp only [Finset.mem_insert, List.mem_cons]
      constructor
      · rintro ((rfl | hs) | ⟨j, hj, hjk⟩)
        · exact Or.inr ⟨i, Or.inl rfl, hk⟩
        · exact Or.inl hs
        · exact Or.inr ⟨j, Or.inr hj, hjk⟩
      · rintro (hs | ⟨j, (rfl | hj), hjk⟩)
        · exact Or.inl (Or.inr hs)
        · rw [hk] at hjk
          exact Or.inl (Or.inl (Option.some.inj hjk).symm)
        · exact Or.inr ⟨j, hj, hjk⟩
    | none =>
      rw [ih]
      simp only [List.mem_cons]
      constructor
      · rintro (hs | ⟨j, hj, hjk⟩)
        · exact Or.inl hs
        · exact Or.inr ⟨j, Or.inr hj, hjk⟩
      · rintro (hs | ⟨j, (rfl | hj), hjk⟩)
        · exact Or.inl hs
        · rw [hk] at hjk
          exact absurd hjk (by simp)
        · exact Or.inr ⟨j, hj, hjk⟩

/-- Claim C7: `range_select` with an anchor adds exactly the keys of the
inclusive index interval between anchor and target to the existing
selection; with no anchor it degenerates to a single selection of the
target; concretely on keys `[a,b,c,d,e]` with anchor 1 and target 3 an
empty selection becomes `{b,c,d}`, and `retain_existing {a,c,e}` then
leaves `{c}`. -/
theorem C7_range_select :
    (∀ (K : Type) [DecidableEq K] (st : MultiSelectState K) (keys : List K) (a t : Nat),
      st.anchor = some a →
      ∀ k : K, k ∈ (st.range_select keys t).selected ↔
        k ∈ st.selected ∨ ∃ i, min a t ≤ i ∧ i ≤ max a t ∧ keys.get? i = some k) ∧
    (∀ (K : Type) [DecidableEq K] (st : MultiSelectState K) (keys : List K) (t : Nat) (k : K),
      st.anchor = none → keys.get? t = some k →
      st.range_select keys t = ⟨{k}, some t⟩) ∧
    ((((⟨∅, some 1⟩ : MultiSelectState String).range_select ["a", "b", "c", "d", "e"] 3).selected
        = {"b", "c", "d"}) ∧
     ((((⟨∅, some 1⟩ : MultiSelectState String).range_select ["a", "b", "c", "d", "e"] 3).retain_existing
        {"a", "c", "e"}).selected = {"c"})) := by
  refine ⟨?_, ?_, by decide, by decide⟩
  · intro K _ st keys a t ha k
    rw [MultiSelectState.range_select, ha]
    simp only
    rw [rangeInsert_mem]
    constructor
    · rintro (hs | ⟨i, hi, hik⟩)
      · exact Or.inl hs
      · rw [List.mem_range'_1] at hi
        exact Or.inr ⟨i, hi.1, by omega, hik⟩
    · rintro (hs | ⟨i, hi1, hi2, hik⟩)
      · exact Or.inl hs
      · refine Or.inr ⟨i, ?_, hik⟩
        rw [List.mem_range'_1]
        constructor
        · exact hi1
        · have : min a t ≤ max a t := min_le_max
          omega
  · intro K _ st keys t k ha hk
    rw [MultiSelectState.range_select, ha]
    simp only [hk, MultiSelectState.set_single]

/-- Witness for C7: the anchored characterization at keys
`[a,b,c,d,e]`, anchor 1, target 3, probe key `"b"`, and the
anchorless degenerate case at target 0. -/
theorem C7_range_select_witness :
    ((⟨∅, some 1⟩ : MultiSelectState String).anchor = some 1) ∧
    ("b" ∈ ((⟨∅, some 1⟩ : MultiSelectState String).range_select ["a", "b", "c", "d", "e"] 3).selected ↔
      "b" ∈ (∅ : Finset String) ∨
        ∃ i, min 1 3 ≤ i ∧ i ≤ max 1 3 ∧ ["a", "b", "c", "d", "e"].get? i = some "b") ∧
    ((⟨∅, none⟩ : MultiSelectState String).range_select ["a", "b"] 0 =
      (⟨{"a"}, some 0⟩ : MultiSelectState String)) :=
  ⟨rfl,
   C7_range_select.1 String ⟨∅, some 1⟩ ["a", "b", "c", "d", "e"] 1 3 rfl "b",
   C7_range_select.2.1 String ⟨∅, none⟩ ["a", "b"] 0 "a" rfl rfl⟩

/-- A concrete files-tab state with one tracked file, a selected
selection, and a set anchor, used to exercise `refresh` on a response
whose file list is empty. -/
def filesStateC9 : FilesTabState :=
  ⟨[⟨"f", "p", none, none, none⟩], some 0, ⟨{"p"}, some 0⟩, 0, 0, none,
   some "p", none, none, none⟩

/-- Claim C9 is false on the code: `FilesTab::refresh` never clears the
multi-select anchor; refreshing to an empty list empties the entries and
the selection and clears the table cursor, but the anchor (set to index
0 here) survives. -/
theorem C9_counterexample :
    ((filesStateC9.refresh (.ok (Json.obj []))).entries = []) ∧
    ((filesStateC9.refresh (.ok (Json.obj []))).tableSelected = none) ∧
    ((filesStateC9.refresh (.ok (Json.obj []))).selection.anchor = some 0) ∧
    ¬((filesStateC9.refresh (.ok (Json.obj []))).selection.anchor = none) := by
  refine ⟨by decide, by decide, by decide, by decide⟩

theorem request_focused_info_frame (st : FilesTabState) :
    (st.request_focused_info_if_needed).selection = st.selection ∧
    (st.request_focused_info_if_needed).tableSelected = st.tableSelected := by
  rw [FilesTabState.request_focused_info_if_needed]
  cases h : st.selected_path with
  | none => exact ⟨rfl, rfl⟩
  | some p =>
    by_cases hf : st.focusedPath = some p
    · simp [hf]
    · simp [hf]

/-- Claim C9 (amended): on every `FilesTab::refresh` with an `Ok`
response, the selection is replaced by its intersection with the
refreshed key set, and the table cursor is cleared when the refreshed
list is empty; the multi-select anchor is left unchanged (the code does
not clear it). -/
theorem C9_refresh_selection_invariant :
    ∀ (st : FilesTabState) (v : Json),
      (∀ k : String, k ∈ (st.refresh (.ok v)).selection.selected ↔
        k ∈ st.selection.selected ∧ k ∈ (parse_files_list v).map (fun e => e.path)) ∧
      (st.refresh (.ok v)).selection.anchor = st.selection.anchor ∧
      (parse_files_list v = [] → (st.refresh (.ok v)).tableSelected = none) := by
  intro st v
  rw [FilesTabState.refresh]
  simp only [FilesTabState.refresh_ok]
  obtain ⟨hsel, htab⟩ := request_focused_info_frame
    { st with entries := parse_files_list v
              selection := st.selection.retain_existing
                ((parse_files_list v).map (fun e => e.path)).toFinset
              tableSelected :=
                if (parse_files_list v).isEmpty then none
                else if st.tableSelected = none then some 0
                else st.tableSelected
              lastError := none }
  rw [hsel, htab]
  refine ⟨?_, rfl, ?_⟩
  · intro k
    simp [MultiSelectState.retain_existing, Finset.mem_filter, List.mem_toFinset]
  · intro h
    simp [h]

/-- Witness for C9: the amended invariant at the concrete state and the
empty response. -/
theorem C9_refresh_selection_invariant_witness :
    ("p" ∈ (filesStateC9.refresh (.ok (Json.obj []))).selection.selected ↔
      "p" ∈ filesStateC9.selection.selected ∧
        "p" ∈ (parse_files_list (Json.obj [])).map (fun e => e.path)) ∧
    ((filesStateC9.refresh (.ok (Json.obj []))).selection.anchor =
      filesStateC9.selection.anchor) ∧
    (parse_files_list (Json.obj []) = [] ∧
      (filesStateC9.refresh (.ok (Json.obj []))).tableSelected = none) :=
  ⟨(C9_refresh_selection_invariant filesStateC9 (Json.obj [])).1 "p",
   (C9_refresh_selection_invariant filesStateC9 (Json.obj [])).2.1,
   by decide,
   (C9_refresh_selection_invariant filesStateC9 (Json.obj [])).2.2 (by decide)⟩

/-- Claim C5 is false as stated for every event frame: a received event
whose name is outside the recognized namespaces (here `"misc.unknown"`,
which is not `"log"` and starts with neither `"network."` nor
`"state."`) makes `DaemonEvent::try_from` fail, and the event-thread
loop then drops the frame instead of delivering an opaque variant. -/
theorem C5_counterexample :
    DaemonEvent.try_from (mkEvt "misc.unknown" .null) =
      .error "unknown event: misc.unknown" ∧
    event_step (mkEvt "misc.unknown" .null) = none :=
  ⟨rfl, rfl⟩

/-- Claim C5 (amended): an event whose name is unrecognized but lies in
the `"state."` (resp. `"network."`) namespace is preserved and delivered
as the opaque `Other` variant carrying the raw name and payload; names
outside the recognized namespaces fail to decode and are dropped. -/
theorem C5_unknown_event_names :
    (∀ (name : String) (data : Json),
      starts_with name "state." = true → starts_with name "network." = false →
      name ≠ "log" → name ≠ "state.files" → name ≠ "state.topics" →
      DaemonEvent.try_from (mkEvt name data) = .ok (.state (.other name data)) ∧
      event_step (mkEvt name data) = some (.state (.other name data))) ∧
    (∀ (name : String) (data : Json),
      starts_with name "network." = true → name ≠ "log" → name ≠ "network.stats" →
      DaemonEvent.try_from (mkEvt name data) = .ok (.network (.other name data)) ∧
      event_step (mkEvt name data) = some (.network (.other name data))) := by
  have hev : ∀ (name : String) (data : Json),
      (((mkEvt name data).get "event").bind Json.asStr).getD "" = name := fun _ _ => rfl
  have hty : ∀ (name : String) (data : Json),
      ((mkEvt name data).get "type").bind Json.asStr = some "evt" := fun _ _ => rfl
  have hdt : ∀ (name : String) (data : Json),
      ((mkEvt name data).get "data").getD .null = data := fun _ _ => rfl
  constructor
  · intro name data hs hn hl hf ht
    have htf : DaemonEvent.try_from (mkEvt name data) = .ok (.state (.other name data)) := by
      simp only [DaemonEvent.try_from, hev, hdt]
      rw [if_neg hl, if_neg (by simp [hn]), if_pos hs]
      simp [StateEvent.from_event_name, hf, ht]
    refine ⟨htf, ?_⟩
    simp only [event_step, hty, if_pos, htf]
    rfl
  · intro name data hs hl hns
    have htf : DaemonEvent.try_from (mkEvt name data) = .ok (.network (.other name data)) := by
      simp only [DaemonEvent.try_from, hev, hdt]
      rw [if_neg hl, if_pos hs]
      simp [NetworkEvent.from_event_name, hns]
    refine ⟨htf, ?_⟩
    simp only [event_step, hty, if_pos, htf]
    rfl

/-- The `i`-th verify call counts towards `ok_count`: response with
`valid:true`. -/
def isOkResp (resp : Nat → Except String Json) (j : Nat) : Bool :=
  match resp j with
  | .ok v => ((v.get "valid").bind Json.asBool) == some true
  | .error _ => false

/-- The `i`-th verify call counts towards `fail_count`: response with
`valid:false`, or an RPC error. -/
def isFailResp (resp : Nat → Except String Json) (j : Nat) : Bool :=
  match resp j with
  | .ok v => ((v.get "valid").bind Json.asBool) == some false
  | .error _ => true

theorem verifyLoop_ok (resp : Nat → Except String Json) (total : Nat) :
    ∀ (ps : List String) (i : Nat),
      (verifyLoop resp total i ps).1 =
        (List.range' i ps.length).countP (isOkResp resp) := by
  intro ps
  induction ps with
  | nil => intro i; simp [verifyLoop]
  | cons p ps ih =>
    intro i
    rw [verifyLoop]
    have hrange : List.range' i (p :: ps).length = i :: List.range' (i + 1) ps.length := rfl
    rw [hrange, List.countP_cons]
    cases hr : resp i with
    | ok v =>
      simp only [isOkResp, hr, ih (i + 1), beq_iff_eq]
      omega
    | error e =>
      simp only [isOkResp, hr, ih (i + 1)]
      simp

theorem verifyLoop_fail (resp : Nat → Except String Json) (total : Nat) :
    ∀ (ps : List String) (i : Nat),
      (verifyLoop resp total i ps).2.1 =
        (List.range' i ps.length).countP (isFailResp resp) := by
  intro ps
  induction ps with
  | nil => intro i; simp [verifyLoop]
  | cons p ps ih =>
    intro i
    rw [verifyLoop]
    have hrange : List.range' i (p :: ps).length = i :: List.range' (i + 1) ps.length := rfl
    rw [hrange, List.countP_cons]
    cases hr : resp i with
    | ok v =>
      simp only [isFailResp, hr, ih (i + 1), beq_iff_eq]
      omega
    | error e =>
      simp only [isFailResp, hr, ih (i + 1)]
      simp [Nat.add_comm]

theorem verifyLoop_results (resp : Nat → Except String Json) (total : Nat) :
    ∀ (ps : List String) (i : Nat),
      (verifyLoop resp total i ps).2.2.1 =
        ((List.range' i ps.length).zip ps).map (fun q => verifyEntry q.2 (resp q.1)) := by
  intro ps
  induction ps with
  | nil => intro i; simp [verifyLoop]
  | cons p ps ih =>
    intro i
    rw [verifyLoop]
    have hrange : List.range' i (p :: ps).length = i :: List.range' (i + 1) ps.length := rfl
    rw [hrange]
    cases hr : resp i with
    | ok v => simp [ih (i + 1), verifyEntry, hr]
    | error e => simp [ih (i + 1), verifyEntry, hr]

theorem verifyLoop_msgs (resp : Nat → Except String Json) (total : Nat) :
    ∀ (ps : List String) (i : Nat),
      (verifyLoop resp total i ps).2.2.2 =
        (List.range' i ps.length).map (fun j => VerifyMsg.progress j total) := by
  intro ps
  induction ps with
  | nil => intro i; simp [verifyLoop]
  | cons p ps ih =>
    intro i
    rw [verifyLoop]
    have hrange : List.range' i (p :: ps).length = i :: List.range' (i + 1) ps.length := rfl
    rw [hrange]
    cases hr : resp i with
    | ok v => simp [ih (i + 1)]
    | error e => simp [ih (i + 1)]

/-- Claim C2 is false in its `total = n` clause: for one path whose
response is an object without a boolean `valid` field, neither counter
is incremented, so the pushed summary is `{ok:0, failed:0, total:0}`
although `n = 1`. -/
theorem C2_counterexample :
    verify_job (fun _ => .ok (Json.obj [])) ["a"] =
      [.progress 0 1, .progress 1 1,
       .done (Json.obj
         [("summary", Json.obj [("ok", .num 0), ("failed", .num 0), ("total", .num 0)]),
          ("results", .arr [Json.obj [("path", .str "a"), ("result", Json.obj [])]])])] ∧
    (["a"] : List String).length = 1 :=
  ⟨rfl, rfl⟩

/-- Claim C2 (amended): the verify job issues one call per path in input
order, never aborts on an individual failure, pushes a progress message
before each item plus a final one, and pushes a single terminal message
with one per-item entry per path in input order and the summary
`{ok, failed, total}` where `ok` counts `valid:true` responses, `failed`
counts `valid:false` responses plus RPC errors, and `total = ok + failed`
(equal to `n` whenever every non-error response carries a boolean `valid`
field, as in the spec's concrete example). -/
theorem C2_batch_verify_aggregation :
    ∀ (paths : List String) (resp : Nat → Except String Json), paths ≠ [] →
      verify_job resp paths =
        ((List.range (paths.length + 1)).map
          (fun j => VerifyMsg.progress j paths.length)) ++
        [VerifyMsg.done (Json.obj
          [("summary", Json.obj
             [("ok", .num ((List.range paths.length).countP (isOkResp resp))),
              ("failed", .num ((List.range paths.length).countP (isFailResp resp))),
              ("total", .num ((List.range paths.length).countP (isOkResp resp) +
                              (List.range paths.length).countP (isFailResp resp)))]),
           ("results", .arr (((List.range paths.length).zip paths).map
              (fun q => verifyEntry q.2 (resp q.1))))])] := by
  intro paths resp _
  simp only [verify_job, verifyLoop_ok, verifyLoop_fail, verifyLoop_results,
    verifyLoop_msgs, List.range_eq_range']
  have hconcat : List.range' 0 (paths.length + 1) =
      List.range' 0 paths.length ++ [paths.length] := by
    simpa using List.range'_1_concat 0 paths.length
  rw [hconcat]
  simp [List.append_assoc]

/-- The daemon outcomes of the spec's concrete verify example:
`valid:true`, `valid:false`, then an RPC error. -/
def respC2 : Nat → Except String Json := fun i =>
  if i = 0 then .ok (Json.obj [("valid", .bool true)])
  else if i = 1 then .ok (Json.obj [("valid", .bool false)])
  else .error "boom"

/-- Witness for C2: verifying 3 paths with outcomes `valid:true`,
`valid:false`, RPC error yields summary `{ok:1, failed:2, total:3}` with
3 per-item entries in input order. -/
theorem C2_batch_verify_aggregation_witness :
    (["a", "b", "c"] : List String) ≠ [] ∧
    verify_job respC2 ["a", "b", "c"] =
      [.progress 0 3, .progress 1 3, .progress 2 3, .progress 3 3,
       .done (Json.obj
         [("summary", Json.obj
            [("ok", .num 1), ("failed", .num 2), ("total", .num 3)]),
          ("results", .arr
            [Json.obj [("path", .str "a"), ("result", Json.obj [("valid", .bool true)])],
             Json.obj [("path", .str "b"), ("result", Json.obj [("valid", .bool false)])],
             Json.obj [("path", .str "c"), ("error", .str "boom")]])])] :=
  ⟨by decide,
   (C2_batch_verify_aggregation ["a", "b", "c"] respC2 (by decide)).trans rfl⟩

theorem scanFromAux_some (qc : Char) :
    ∀ (L : List Char) (i j : Nat), scanFromAux qc L i = some j →
      ∃ pre c post, L = pre ++ c :: post ∧ j = i + pre.length ∧
        c.toLower = qc.toLower ∧ ∀ x ∈ pre, x.toLower ≠ qc.toLower := by
  intro L
  induction L with
  | nil => intro i j h; simp [scanFromAux] at h
  | cons c rest ih =>
    intro i j h
    rw [scanFromAux] at h
    by_cases hc : c.toLower = qc.toLower
    · rw [if_pos hc] at h
      refine ⟨[], c, rest, by simp, ?_, hc, by simp⟩
      simpa using (Option.some.inj h).symm
    · rw [if_neg hc] at h
      obtain ⟨pre, c', post, hL, hj, hc', hpre⟩ := ih (i + 1) j h
      refine ⟨c :: pre, c', post, by rw [hL]; rfl, by simp [hj]; omega, hc', ?_⟩
      intro x hx
      rcases List.mem_cons.mp hx with rfl | hx
      · exact hc
      · exact hpre x hx

theorem scanFromAux_none (qc : Char) :
    ∀ (L : List Char) (i : Nat), scanFromAux qc L i = none →
      ∀ x ∈ L, x.toLower ≠ qc.toLower := by
  intro L
  induction L with
  | nil => intro i _ x hx; simp at hx
  | cons c rest ih =>
    intro i h x hx
    rw [scanFromAux] at h
    by_cases hc : c.toLower = qc.toLower
    · rw [if_pos hc] at h; exact absurd h (by simp)
    · rw [if_neg hc] at h
      rcases List.mem_cons.mp hx with rfl | hx
      · exact hc
      · exact ih (i + 1) h x hx

theorem greedyIndices_length :
    ∀ (q : List Char) (label : List Char) (li : Nat) (idxs : List Nat),
      greedyIndices label li q = some idxs → idxs.length = q.length := by
  intro q
  induction q with
  | nil =>
    intro label li idxs h
    rw [greedyIndices] at h
    simp [← Option.some.inj h]
  | cons qc qs ih =>
    intro label li idxs h
    rw [greedyIndices] at h
    cases hs : scanFromAux qc (label.drop li) li with
    | none => simp [hs] at h
    | some idx =>
      cases hg : greedyIndices label (idx + 1) qs with
      | none => simp [hs, hg] at h
      | some idxs' =>
        simp [hs, hg] at h
        subst h
        simp [ih label (idx + 1) idxs' hg]

theorem greedyIndices_bounds :
    ∀ (q : List Char) (label : List Char) (li : Nat) (idxs : List Nat),
      greedyIndices label li q = some idxs →
      (∀ x ∈ idxs, li ≤ x ∧ x < label.length) ∧ idxs.Pairwise (· < ·) := by
  intro q
  induction q with
  | nil =>
    intro label li idxs h
    rw [greedyIndices] at h
    rw [← Option.some.inj h]
    simp
  | cons qc qs ih =>
    intro label li idxs h
    rw [greedyIndices] at h
    cases hs : scanFromAux qc (label.drop li) li with
    | none => simp [hs] at h
    | some idx =>
      cases hg : greedyIndices label (idx + 1) qs with
      | none => simp [hs, hg] at h
      | some idxs' =>
        simp [hs, hg] at h
        subst h
        obtain ⟨pre, c, post, hL, hj, _, _⟩ := scanFromAux_some qc _ li idx hs
        have hlen : (label.drop li).length = label.length - li := List.length_drop li label
        have hidx : li ≤ idx ∧ idx < label.length := by
          rw [hL] at hlen
          simp only [List.length_append, List.length_cons] at hlen
          omega
        obtain ⟨hb, hp⟩ := ih label (idx + 1) idxs' hg
        constructor
        · intro x hx
          rcases List.mem_cons.mp hx with rfl | hx
          · exact hidx
          · have := hb x hx
            omega
        · rw [List.pairwise_cons]
          refine ⟨fun x hx => ?_, hp⟩
          have := hb x hx
          omega

theorem drop_after_scan (label : List Char) (li idx : Nat) (pre post : List Char) (c : Char)
    (hL : label.drop li = pre ++ c :: post) (hj : idx = li + pre.length) :
    label.drop (idx + 1) = post := by
  have h1 : label.drop (idx + 1) = (label.drop li).drop (pre.length + 1) := by
    rw [List.drop_drop]
    congr 1
    omega
  rw [h1, hL, List.append_cons]
  have h2 : (pre ++ [c]).length = pre.length + 1 := by simp
  rw [← h2, List.drop_left]

theorem sublist_skip_nomatch {α : Type} :
    ∀ (P : List α) {S : List α} {a : α} {t : List α},
      List.Sublist (a :: t) (P ++ S) → a ∉ P → List.Sublist (a :: t) S := by
  intro P
  induction P with
  | nil => intro S a t h _; simpa using h
  | cons p P ih =>
    intro S a t h hmem
    have hne : a ≠ p := fun hap => hmem (hap ▸ List.mem_cons_self p P)
    have hP : a ∉ P := fun hx => hmem (List.mem_cons_of_mem p hx)
    cases h with
    | cons _ h2 => exact ih h2 hP
    | cons₂ _ _ => exact absurd rfl hne

theorem greedy_sound :
    ∀ (q : List Char) (label : List Char) (li : Nat) (idxs : List Nat),
      greedyIndices label li q = some idxs →
      List.Sublist (q.map Char.toLower) ((label.drop li).map Char.toLower) := by
  intro q
  induction q with
  | nil => intro label li idxs _; simp
  | cons qc qs ih =>
    intro label li idxs h
    rw [greedyIndices] at h
    cases hs : scanFromAux qc (label.drop li) li with
    | none => simp [hs] at h
    | some idx =>
      cases hg : greedyIndices label (idx + 1) qs with
      | none => simp [hs, hg] at h
      | some idxs' =>
        obtain ⟨pre, c, post, hL, hj, hc, _⟩ := scanFromAux_some qc _ li idx hs
        have hdrop : label.drop (idx + 1) = post := drop_after_scan label li idx pre post c hL hj
        have ihs : List.Sublist (qs.map Char.toLower) (post.map Char.toLower) := by
          have := ih label (idx + 1) idxs' hg
          rwa [hdrop] at this
        rw [hL, List.map_append, List.map_cons]
        have h1 : List.Sublist (qc.toLower :: qs.map Char.toLower)
            (c.toLower :: post.map Char.toLower) := by
          rw [hc]
          exact ihs.cons₂ qc.toLower
        exact h1.trans (List.sublist_append_right _ _)

theorem greedy_complete :
    ∀ (q : List Char) (label : List Char) (li : Nat),
      List.Sublist (q.map Char.toLower) ((label.drop li).map Char.toLower) →
      (greedyIndices label li q).isSome = true := by
  intro q
  induction q with
  | nil => intro label li _; rw [greedyIndices]; rfl
  | cons qc qs ih =>
    intro label li h
    have hmem : qc.toLower ∈ (label.drop li).map Char.toLower :=
      h.subset (List.mem_cons_self _ _)
    cases hs : scanFromAux qc (label.drop li) li with
    | none =>
      obtain ⟨x, hx, hxl⟩ := List.mem_map.mp hmem
      exact absurd hxl (scanFromAux_none qc _ li hs x hx)
    | some idx =>
      obtain ⟨pre, c, post, hL, hj, hc, hpre⟩ := scanFromAux_some qc _ li idx hs
      have hdrop : label.drop (idx + 1) = post := drop_after_scan label li idx pre post c hL hj
      rw [hL, List.map_append, List.map_cons] at h
      have hnotin : qc.toLower ∉ pre.map Char.toLower := by
        intro hin
        obtain ⟨x, hx, hxl⟩ := List.mem_map.mp hin
        exact hpre x hx (by rw [hxl])
      have h1 : List.Sublist (qc.toLower :: qs.map Char.toLower)
          (c.toLower :: post.map Char.toLower) :=
        sublist_skip_nomatch _ h hnotin
      rw [hc] at h1
      have h2 : List.Sublist (qs.map Char.toLower) (post.map Char.toLower) := by
        cases h1 with
        | cons _ h3 => exact (List.sublist_cons_self _ _).trans h3
        | cons₂ _ h3 => exact h3
      have h3 := ih label (idx + 1) (by rwa [hdrop])
      cases hg : greedyIndices label (idx + 1) qs with
      | none => rw [hg] at h3; simp at h3
      | some idxs' => simp [greedyIndices, hs, hg]

/-- Claim C6: `subseq_score` succeeds exactly when the query is a
case-insensitive subsequence of the label; it returns one strictly
increasing in-range position per query character, the score equals
`10 × matched − first_position + 15 × adjacent_pairs`, the empty query
matches everything with score 0 and no positions, and for query `"do"`
a label starting with `"do"` outscores one containing `"do"` later. -/
theorem C6_subseq_score :
    (∀ label : List Char, subseq_score label [] = some (0, [])) ∧
    (∀ (label query : List Char) (s : Int) (ps : List Nat),
      subseq_score label query = some (s, ps) →
      ps.length = query.length ∧ ps.Pairwise (· < ·) ∧ (∀ x ∈ ps, x < label.length) ∧
      s = 10 * (query.length : Int) + 15 * (adjPairs ps : Int) - (ps.headD 0 : Nat)) ∧
    (∀ (label query : List Char),
      (subseq_score label query).isSome = true ↔
        List.Sublist (query.map Char.toLower) (label.map Char.toLower)) ∧
    (subseq_score "dox".data "do".data = some (35, [0, 1]) ∧
     subseq_score "xdo".data "do".data = some (34, [1, 2]) ∧
     subseq_score "download.txt".data "dlt".data = some (30, [0, 4, 9]) ∧
     subseq_score "download.txt".data "xyz".data = none) := by
  refine ⟨?_, ?_, ?_, by decide, by decide, by decide, by decide⟩
  · intro label
    rfl
  · intro label query s ps h
    rw [subseq_score] at h
    by_cases hq : query.isEmpty
    · rw [if_pos hq] at h
      obtain ⟨hs, hps⟩ := Prod.mk.injEq .. ▸ Option.some.inj h
      have hqe : query = [] := List.isEmpty_iff.mp hq
      subst hqe
      rw [← hs, ← hps]
      simp [adjPairs]
    · rw [if_neg hq] at h
      cases hg : greedyIndices label 0 query with
      | none => rw [hg] at h; simp at h
      | some idxs =>
        simp only [hg] at h
        obtain ⟨hs, hps⟩ := Prod.mk.injEq .. ▸ Option.some.inj h
        have hlen := greedyIndices_length query label 0 idxs hg
        obtain ⟨hb, hp⟩ := greedyIndices_bounds query label 0 idxs hg
        subst hps
        refine ⟨hlen, hp, fun x hx => (hb x hx).2, ?_⟩
        rw [← hs, hlen]
  · intro label query
    rw [subseq_score]
    by_cases hq : query.isEmpty
    · rw [if_pos hq]
      have hqe : query = [] := List.isEmpty_iff.mp hq
      subst hqe
      simp
    · rw [if_neg hq]
      constructor
      · intro h
        cases hg : greedyIndices label 0 query with
        | none => rw [hg] at h; simp at h
        | some idxs =>
          have := greedy_sound query label 0 idxs hg
          simpa using this
      · intro h
        have := greedy_complete query label 0 (by simpa using h)
        cases hg : greedyIndices label 0 query with
        | none => rw [hg] at this; simp at this
        | some idxs => rfl

/-- Witness for C6: the per-match postcondition instantiated at the
spec's `match("download.txt", "dlt")` example. -/
theorem C6_subseq_score_witness :
    ([0, 4, 9] : List Nat).length = "dlt".data.length ∧
    ([0, 4, 9] : List Nat).Pairwise (· < ·) ∧
    (∀ x ∈ ([0, 4, 9] : List Nat), x < "download.txt".data.length) ∧
    (30 : Int) = 10 * ("dlt".data.length : Int) +
      15 * (adjPairs [0, 4, 9] : Int) - (([0, 4, 9] : List Nat).headD 0 : Nat) :=
  C6_subseq_score.2.1 "download.txt".data "dlt".data 30 [0, 4, 9] (by decide)

theorem charCmp_eq_lt {a b : Char} : charCmp a b = .lt ↔ a.toNat < b.toNat := by
  unfold charCmp
  split_ifs with h1 h2 <;> simp_all <;> omega

theorem charCmp_eq_eq {a b : Char} : charCmp a b = .eq ↔ a.toNat = b.toNat := by
  unfold charCmp
  split_ifs with h1 h2 <;> simp_all <;> omega

theorem intCmp_eq_lt {a b : Int} : intCmp a b = .lt ↔ a < b := by
  unfold intCmp
  split_ifs with h1 h2 <;> simp_all <;> omega

theorem intCmp_eq_eq {a b : Int} : intCmp a b = .eq ↔ a = b := by
  unfold intCmp
  split_ifs with h1 h2 <;> simp_all <;> omega

theorem then_swap (a b : Ordering) : (a.then b).swap = a.swap.then b.swap := by
  cases a <;> rfl

theorem then_ne_gt (a b : Ordering) :
    a.then b ≠ .gt ↔ a = .lt ∨ (a = .eq ∧ b ≠ .gt) := by
  cases a <;> simp [Ordering.then]

theorem charCmp_swap (a b : Char) : charCmp a b = (charCmp b a).swap := by
  unfold charCmp
  split_ifs with h1 h2 h3 h4 <;> first | rfl | omega

theorem intCmp_swap (a b : Int) : intCmp a b = (intCmp b a).swap := by
  unfold intCmp
  split_ifs with h1 h2 h3 h4 <;> first | rfl | omega

theorem lexCmp_swap : ∀ (x y : List Char), lexCmp x y = (lexCmp y x).swap := by
  intro x
  induction x with
  | nil => intro y; cases y <;> rfl
  | cons a as ih =>
    intro y
    cases y with
    | nil => rfl
    | cons b bs =>
      rw [lexCmp, lexCmp, then_swap, ← charCmp_swap, ← ih]

theorem lexCmp_trans :
    ∀ (x y z : List Char), lexCmp x y ≠ .gt → lexCmp y z ≠ .gt → lexCmp x z ≠ .gt := by
  intro x
  induction x with
  | nil => intro y z _ _; cases z <;> simp [lexCmp]
  | cons a as ih =>
    intro y z h1 h2
    cases y with
    | nil => simp [lexCmp] at h1
    | cons b bs =>
      cases z with
      | nil => simp [lexCmp] at h2
      | cons c cs =>
        rw [lexCmp] at h1 h2 ⊢
        rw [then_ne_gt] at h1 h2 ⊢
        rcases h1 with h1 | ⟨h1e, h1r⟩ <;> rcases h2 with h2 | ⟨h2e, h2r⟩
        · rw [charCmp_eq_lt] at *
          left; omega
        · rw [charCmp_eq_lt] at h1 ⊢
          rw [charCmp_eq_eq] at h2e
          left; omega
        · rw [charCmp_eq_eq] at h1e
          rw [charCmp_eq_lt] at h2 ⊢
          left; omega
        · rw [charCmp_eq_eq] at h1e h2e
          right
          exact ⟨charCmp_eq_eq.mpr (by omega), ih bs cs h1r h2r⟩

theorem visLe_iff (labels : List (List Char)) (a b : VisibleItem) :
    visLe labels a b = true ↔
      (b.2.1 < a.2.1 ∨ (b.2.1 = a.2.1 ∧
        lexCmp (labels.getD a.1 []) (labels.getD b.1 []) ≠ .gt)) := by
  have h1 : visLe labels a b = true ↔ visCmp labels a b ≠ .gt := by
    rcases h : visCmp labels a b <;> simp [visLe, h]
  rw [h1, visCmp, then_ne_gt, intCmp_eq_lt, intCmp_eq_eq]

theorem visLe_trans (labels : List (List Char)) (a b c : VisibleItem) :
    visLe labels a b → visLe labels b c → visLe labels a c := by
  intro h1 h2
  rw [visLe_iff] at h1 h2 ⊢
  rcases h1 with h1 | ⟨h1e, h1r⟩ <;> rcases h2 with h2 | ⟨h2e, h2r⟩
  · left; omega
  · left; omega
  · left; omega
  · right
    exact ⟨by omega, lexCmp_trans _ _ _ h1r h2r⟩

theorem visLe_total (labels : List (List Char)) (a b : VisibleItem) :
    visLe labels a b || visLe labels b a := by
  have hswap : visCmp labels a b = (visCmp labels b a).swap := by
    rw [visCmp, visCmp, then_swap, ← intCmp_swap, ← lexCmp_swap]
  rw [visLe, visLe, hswap]
  cases visCmp labels b a <;> rfl

unseal List.merge List.mergeSort in
/-- Claim C8 is false in its case-insensitive tie-break clause: with
labels `"xa"` and `"xB"` and query `"x"` both items score 10, and the
code's tie-break (`label.cmp`, byte order) puts `"xB"` first because
`'B' < 'a'` in byte order, whereas a case-insensitive ascending
comparison orders `"xa"` before `"xB"`. -/
theorem C8_counterexample :
    recompute_visible [['x', 'a'], ['x', 'B']] ['x'] =
      [(1, 10, [0]), (0, 10, [0])] ∧
    lexCmp (['x', 'a'].map Char.toLower) (['x', 'B'].map Char.toLower) = .lt :=
  ⟨rfl, rfl⟩

/-- Claim C8 (amended): for every item list and query, the recomputed
visible list contains exactly the items the (trimmed) query matches,
ordered by descending score with ties broken by ascending
case-sensitive (byte-order) label comparison; an empty trimmed query
keeps every item in order with score 0. -/
theorem C8_filter_result_ordering :
    ∀ (labels : List (List Char)) (query : List Char),
      (trimChars query = [] →
        recompute_visible labels query =
          labels.enum.map (fun p => (p.1, (0 : Int), ([] : List Nat)))) ∧
      (trimChars query ≠ [] →
        List.Perm (recompute_visible labels query)
          (labels.enum.filterMap (fun p =>
            (subseq_score p.2 (trimChars query)).map (fun r => (p.1, r.1, r.2)))) ∧
        (∀ e : VisibleItem, e ∈ recompute_visible labels query ↔
          ∃ lab, labels[e.1]? = some lab ∧
            subseq_score lab (trimChars query) = some (e.2.1, e.2.2)) ∧
        (recompute_visible labels query).Pairwise (fun a b =>
          b.2.1 < a.2.1 ∨ (b.2.1 = a.2.1 ∧
            lexCmp (labels.getD a.1 []) (labels.getD b.1 []) ≠ .gt))) := by
  intro labels query
  constructor
  · intro h
    rw [recompute_visible, if_pos (List.isEmpty_iff.mpr h)]
  · intro h
    have hne : (trimChars query).isEmpty = false := by
      rw [Bool.eq_false_iff]
      intro hc
      exact h (List.isEmpty_iff.mp hc)
    have hrv : recompute_visible labels query =
        (labels.enum.filterMap (fun p =>
          (subseq_score p.2 (trimChars query)).map
            (fun r => (p.1, r.1, r.2)))).mergeSort (visLe labels) := by
      rw [recompute_visible]
      simp only [hne, Bool.false_eq_true, if_false]
    refine ⟨?_, ?_, ?_⟩
    · rw [hrv]
      exact List.mergeSort_perm _ _
    · intro e
      rw [hrv, List.mem_mergeSort, List.mem_filterMap]
      constructor
      · rintro ⟨⟨i, lab⟩, hp, heq⟩
        rw [Option.map_eq_some'] at heq
        obtain ⟨r, hr, hre⟩ := heq
        have hi : labels[i]? = some lab := List.mk_mem_enum_iff_getElem?.mp hp
        rw [← hre]
        exact ⟨lab, hi, by simpa using hr⟩
      · rintro ⟨lab, hlab, hsc⟩
        refine ⟨(e.1, lab), List.mk_mem_enum_iff_getElem?.mpr hlab, ?_⟩
        rw [Option.map_eq_some']
        exact ⟨(e.2.1, e.2.2), hsc, rfl⟩
    · rw [hrv]
      have hp : ((labels.enum.filterMap (fun p =>
          (subseq_score p.2 (trimChars query)).map
            (fun r => (p.1, r.1, r.2)))).mergeSort (visLe labels)).Pairwise
            (fun a b => visLe labels a b = true) := by
        exact List.sorted_mergeSort
          (fun a b c hab hbc => visLe_trans labels a b c hab hbc)
          (fun a b => visLe_total labels a b) _
      exact hp.imp (fun hab => (visLe_iff labels _ _).mp hab)

/-- Witness for C8: the amended characterization at concrete inputs, for
both the empty-trimmed-query branch (query `" "`) and the matching
branch (labels `"xa"`, `"xB"`, query `"x"`). -/
theorem C8_filter_result_ordering_witness :
    (trimChars [' '] = []) ∧
    (recompute_visible [['a']] [' '] =
      ([['a']] : List (List Char)).enum.map (fun p => (p.1, (0 : Int), ([] : List Nat)))) ∧
    (trimChars ['x'] ≠ []) ∧
    List.Perm (recompute_visible [['x', 'a'], ['x', 'B']] ['x'])
      (([['x', 'a'], ['x', 'B']] : List (List Char)).enum.filterMap (fun p =>
        (subseq_score p.2 (trimChars ['x'])).map (fun r => (p.1, r.1, r.2)))) :=
  ⟨by decide,
   (C8_filter_result_ordering [['a']] [' ']).1 (by decide),
   by decide,
   ((C8_filter_result_ordering [['x', 'a'], ['x', 'B']] ['x']).2 (by decide)).1⟩

/-- Witness for C5: the spec's concrete example
`"state.unknown_future_kind"` decodes to the opaque state variant with
its name and payload intact, and is delivered by the event loop. -/
theorem C5_unknown_event_names_witness :
    DaemonEvent.try_from (mkEvt "state.unknown_future_kind" .null) =
      .ok (.state (.other "state.unknown_future_kind" .null)) ∧
    event_step (mkEvt "state.unknown_future_kind" .null) =
      some (.state (.other "state.unknown_future_kind" .null)) :=
  C5_unknown_event_names.1 "state.unknown_future_kind" .null
    (by decide) (by decide) (by decide) (by decide) (by decide)

end SwarmFS
